import Mathlib

/-!
Verification of the incremental harvesting pipeline in `main_parser.py`.

The development shallowly embeds the pieces of the program that the
claims are about:

* `JVal` — JSON values as the program manipulates them (parsed records,
  node wrappers, embedded sub-documents).
* `save_data` / `save_point_data` — the delta-merge/persist methods
  `BaseParser.save_data` and `BaseParser.save_point_data`.  File system
  state is a `FileState` (absent / readable with records / unreadable),
  and the write step is modelled by `performWrite`: the source opens the
  target with mode "w" (truncating it in place) before `json.dump`, so a
  failure mid-write leaves the file corrupt.
* `fetch_data` — the retry loop of `BaseParser.fetch_data`, driven by an
  oracle giving the outcome of each GET attempt; the model returns the
  result together with the number of attempts performed and the list of
  backoff sleeps.
* `extract_geo_points` — geo-point discovery over a modelled directory
  listing.
* `parse_point_data_php` — the embedded "php" sub-document expansion
  loop inside `BaseParser.parse_point_data`.

Logging calls in the source are informational side effects and are not
modelled; the distinct `SaveOutcome` constructors record which logging
branch was taken.
-/

/-- A JSON value, as produced by `json.load`/`json.loads` and manipulated
by the program.  Numbers do not occur in any claim and are not needed:
string, null, object and array cover every value the embedded code
inspects. -/
inductive JVal where
  | str (s : String)
  | null
  | obj (fields : List (String × JVal))
  | arr (elems : List JVal)

mutual

/-- Structural equality of JSON values (Python `==` on parsed JSON). -/
def JVal.beq : JVal → JVal → Bool
  | .str a, .str b => a == b
  | .null, .null => true
  | .obj a, .obj b => JVal.beqFields a b
  | .arr a, .arr b => JVal.beqElems a b
  | _, _ => false

/-- Equality of JSON object field lists. -/
def JVal.beqFields : List (String × JVal) → List (String × JVal) → Bool
  | [], [] => true
  | (k1, v1) :: t1, (k2, v2) :: t2 => k1 == k2 && JVal.beq v1 v2 && JVal.beqFields t1 t2
  | _, _ => false

/-- Equality of JSON array element lists. -/
def JVal.beqElems : List JVal → List JVal → Bool
  | [], [] => true
  | a :: t1, b :: t2 => JVal.beq a b && JVal.beqElems t1 t2
  | _, _ => false

end

theorem JVal.beq_spec :
    (∀ a b : JVal, (JVal.beq a b = true ↔ a = b)) ∧
    (∀ a b : List JVal, (JVal.beqElems a b = true ↔ a = b)) ∧
    (∀ a b : List (String × JVal), (JVal.beqFields a b = true ↔ a = b)) := by
  refine JVal.beq.mutual_induct
    (fun a b => JVal.beq a b = true ↔ a = b)
    (fun a b => JVal.beqElems a b = true ↔ a = b)
    (fun a b => JVal.beqFields a b = true ↔ a = b)
    ?_ ?_ ?_ ?_ ?_ ?_ ?_ ?_ ?_ ?_ ?_
  · intro a b; simp [JVal.beq]
  · simp [JVal.beq]
  · intro a b ih; simpa [JVal.beq] using ih
  · intro a b ih; simpa [JVal.beq] using ih
  · intro t x h1 h2 h3 h4
    cases t <;> cases x <;> simp_all [JVal.beq]
  · simp [JVal.beqFields]
  · intro k1 v1 t1 k2 v2 t2 ihv iht
    simp [JVal.beqFields, ihv, iht, and_assoc]
  · intro t x h1 h2
    cases t with
    | nil => cases x with
      | nil => exact (h1 rfl rfl).elim
      | cons b t2 => simp [JVal.beqFields]
    | cons a t1 => cases x with
      | nil => simp [JVal.beqFields]
      | cons b t2 => exact (h2 a.1 a.2 t1 b.1 b.2 t2 rfl rfl).elim
  · simp [JVal.beqElems]
  · intro a t1 b t2 ihv iht
    simp [JVal.beqElems, ihv, iht]
  · intro t x h1 h2
    cases t with
    | nil => cases x with
      | nil => exact (h1 rfl rfl).elim
      | cons b t2 => simp [JVal.beqElems]
    | cons a t1 => cases x with
      | nil => simp [JVal.beqElems]
      | cons b t2 => exact (h2 a t1 b t2 rfl rfl).elim

instance : BEq JVal := ⟨JVal.beq⟩

instance : LawfulBEq JVal where
  eq_of_beq h := (JVal.beq_spec.1 _ _).mp h
  rfl := (JVal.beq_spec.1 _ _).mpr rfl

instance : DecidableEq JVal := fun a b =>
  decidable_of_iff (JVal.beq a b = true) (JVal.beq_spec.1 a b)

/-- Dictionary lookup: `v[k]` when `v` is a JSON object, `none` otherwise
(subscripting a non-dict raises in Python, and a missing key raises
`KeyError`; both are modelled by `none`). -/
def JVal.lookup (v : JVal) (k : String) : Option JVal :=
  match v with
  | .obj fields => List.lookup k fields
  | _ => none

/-- Python `dict.get(k, dflt)`. -/
def JVal.get (v : JVal) (k : String) (dflt : JVal) : JVal :=
  (v.lookup k).getD dflt

/-- Python truthiness of a JSON value: empty string, `None`, empty dict
and empty list are falsy. -/
def JVal.truthy : JVal → Bool
  | .str s => !(s == "")
  | .null => false
  | .obj fields => !fields.isEmpty
  | .arr elems => !elems.isEmpty

/-- Python `d[k] = v` on a dict: replace the value in place if the key is
present (keeping insertion order), append otherwise. -/
def setField (fields : List (String × JVal)) (k : String) (v : JVal) :
    List (String × JVal) :=
  if fields.any (fun p => p.1 == k) then
    fields.map (fun p => if p.1 == k then (k, v) else p)
  else fields ++ [(k, v)]

/-- Python `del d[k]`. -/
def delField (fields : List (String × JVal)) (k : String) :
    List (String × JVal) :=
  fields.filter (fun p => !(p.1 == k))

/-- State of one snapshot file on disk. -/
inductive FileState where
  | absent
  | good (records : List JVal)
  | corrupt
deriving DecidableEq

/-- The records readable from a snapshot file (none if absent or
unreadable). -/
def fileRecords : FileState → List JVal
  | .good records => records
  | _ => []

/-- Environment behaviour of one whole-file write attempt. -/
inductive WriteBehavior where
  | ok
  | failMidway
deriving DecidableEq

/-- Outcome reported by a merge, mirroring the distinct logging branches
of `save_data` / `save_point_data`:
no data to save, read failure on the existing file, exception from a
record lacking its identity key, no new records (explicit no-op),
successful write (with the reported new-record count, absent in initial
mode, and the total), and write failure. -/
inductive SaveOutcome where
  | skippedEmpty
  | readError
  | keyError
  | noNewData
  | wrote (newCount : Option Nat) (total : Nat)
  | writeError
deriving DecidableEq

/-- The write step of `save_data` / `save_point_data`.  The source runs
`open(filename, "w", ...)` followed by `json.dump`: opening with mode
"w" truncates the target in place, so a failure during the dump leaves
the file corrupt, whatever it held before.  On success the file holds
exactly `content`. -/
def performWrite (content : List JVal) (newCount : Option Nat)
    (wb : WriteBehavior) : FileState × SaveOutcome :=
  match wb with
  | .ok => (.good content, .wrote newCount content.length)
  | .failMidway => (.corrupt, .writeError)

/-- Identity key of a primary-entity record: `item["Nid"]`. -/
def nidOf (r : JVal) : Option JVal := r.lookup "Nid"

/-- Identity key of a fan-out record: `item["node"]["field_period"]`. -/
def periodOf (item : JVal) : Option JVal :=
  match item.lookup "node" with
  | some node => node.lookup "field_period"
  | none => none

/-- The identity keys of a record list, as gathered by the set
comprehension over `item["Nid"]` (or `item["node"]["field_period"]`):
`none` models the `KeyError` the comprehension raises when a record
lacks its key. -/
def keysOf (key : JVal → Option JVal) : List JVal → Option (List JVal)
  | [] => some []
  | r :: rest =>
    match key r, keysOf key rest with
    | some k, some ks => some (k :: ks)
    | _, _ => none

/-- The computed subset of the new records whose identity key is not
among the existing keys, in their original order. -/
def newSubset (key : JVal → Option JVal) (eks : List JVal)
    (nd : List JVal) : List JVal :=
  nd.filter (fun r => match key r with
    | some k => !(eks.contains k)
    | none => false)

/-- Incremental-mode core shared verbatim by `save_data` (key = `nidOf`)
and `save_point_data` (key = `periodOf`): build the set of identity keys
of the existing records, keep only the new records whose key is not in
it, no-op if that subset is empty, otherwise rewrite the whole file with
existing followed by the new subset.  A record without its key raises
`KeyError` in the source (`keyError` here), leaving the file untouched. -/
def mergeInto (key : JVal → Option JVal) (newData existing : List JVal)
    (file : FileState) (wb : WriteBehavior) : FileState × SaveOutcome :=
  match keysOf key existing, keysOf key newData with
  | some existingKeys, some _ =>
    let newRecords := newSubset key existingKeys newData
    if newRecords.isEmpty then (file, .noNewData)
    else performWrite (existing ++ newRecords) (some newRecords.length) wb
  | _, _ => (file, .keyError)

/-- Shared shape of `BaseParser.save_data` and
`BaseParser.save_point_data`: skip when there is nothing to save; in
initial mode write the new data without reading the existing file; in
incremental mode abort on an unreadable existing file, treat an absent
file as empty, and merge. -/
def mergeSave (key : JVal → Option JVal) (newData : List JVal)
    (initialParse : Bool) (file : FileState) (wb : WriteBehavior) :
    FileState × SaveOutcome :=
  if newData.isEmpty then (file, .skippedEmpty)
  else if initialParse then performWrite newData none wb
  else
    match file with
    | .corrupt => (.corrupt, .readError)
    | .absent => mergeInto key newData [] .absent wb
    | .good e => mergeInto key newData e (.good e) wb

/-- `BaseParser.save_data` (main_parser.py lines 100-137): persist
`parsedData` into the collection file, keyed by `"Nid"`. -/
def save_data (parsedData : List JVal) (initialParse : Bool)
    (file : FileState) (wb : WriteBehavior) : FileState × SaveOutcome :=
  mergeSave nidOf parsedData initialParse file wb

/-- `BaseParser.save_point_data` (main_parser.py lines 207-244): persist
the `"nodes"` list of a fetched point document, keyed by
`item["node"]["field_period"]`.  The guard `if not data or not
data.get("nodes")` reduces to the node list being empty. -/
def save_point_data (nodes : List JVal) (initialParse : Bool)
    (file : FileState) (wb : WriteBehavior) : FileState × SaveOutcome :=
  mergeSave periodOf nodes initialParse file wb

/-- Outcome of one GET attempt, as classified by the `except` clauses of
`fetch_data`: timeout (`asyncio.TimeoutError`), HTTP error with a status
(`aiohttp.ClientResponseError`, raised by `raise_for_status`), any other
transport error (`aiohttp.ClientError`), or a 2xx response whose parsed
body is `body`. -/
inductive AttemptOutcome where
  | timeout
  | httpError (status : Nat)
  | clientError
  | success (body : JVal)

/-- Result of `fetch_data`: the parsed response, or the empty list the
source returns on every failure path (including a 2xx body with no
`"nodes"` key). -/
inductive FetchResult where
  | empty
  | responseData (body : JVal)
deriving DecidableEq

/-- The `while attempts < max_attempts` loop of `fetch_data`
(main_parser.py lines 39-69).  `attempts` is the loop counter;
`remaining` is `max_attempts - attempts`, the number of loop iterations
left.  Attempt number `i` (0-based) has outcome `outcome i`.  Returns
the result, the number of attempts performed, and the list of backoff
sleeps (`await asyncio.sleep(2 ** attempts)`) in order. -/
def fetchLoop (outcome : Nat → AttemptOutcome) (maxAttempts : Nat) :
    Nat → Nat → FetchResult × Nat × List Nat
  | attempts, 0 => (.empty, attempts, [])
  | attempts, remaining + 1 =>
    match outcome attempts with
    | .success body =>
      if (body.lookup "nodes").isSome then (.responseData body, attempts + 1, [])
      else (.empty, attempts + 1, [])
    | .timeout =>
      if attempts + 1 == maxAttempts then (.empty, attempts + 1, [])
      else
        let rest := fetchLoop outcome maxAttempts (attempts + 1) remaining
        (rest.1, rest.2.1, 2 ^ (attempts + 1) :: rest.2.2)
    | .httpError _ => (.empty, attempts + 1, [])
    | .clientError => (.empty, attempts + 1, [])

/-- `BaseParser.fetch_data` (main_parser.py lines 35-69), abstracting the
network as the per-attempt outcome oracle.  `retries` is
`self.retries`, the constructor default being 3.  The initial politeness
delay touches no state in the model. -/
def fetch_data (retries : Nat) (outcome : Nat → AttemptOutcome) :
    FetchResult × Nat × List Nat :=
  fetchLoop outcome retries 0 retries

/-- Content of one file in the category directory: readable with parsed
records, or unreadable (`json.load` or the scan raised and the handler
caught it). -/
inductive FileData where
  | readable (records : List JVal)
  | unreadable
deriving DecidableEq

/-- Directory model: file name to content.  `os.listdir` enumerates the
entries; `os.path.exists` of a name not listed is false. -/
def lookupFs (fs : List (String × FileData)) (name : String) : FileState :=
  match List.lookup name fs with
  | some (.readable records) => .good records
  | some .unreadable => .corrupt
  | none => .absent

/-- Geo-point field of one record in the water branch:
`item.get("field_geo_point", "")`. -/
def geoPointFieldWater (fields : List (String × JVal)) : JVal :=
  (List.lookup "field_geo_point" fields).getD (.str "")

/-- Geo-point field of one record in the default branch:
`item.get("field_geo_point", item.get("Nid", ""))`. -/
def geoPointFieldDefault (fields : List (String × JVal)) : JVal :=
  (List.lookup "field_geo_point" fields).getD
    ((List.lookup "Nid" fields).getD (.str ""))

/-- The per-file scan of `extract_geo_points`: collect each truthy value
that differs from the sentinel `"Unknown"`.  A non-dict item raises
`AttributeError`, which the per-file handler catches, ending the scan of
that file with the values gathered so far. -/
def collectGeoPoints (gp : List (String × JVal) → JVal) :
    List JVal → List JVal
  | [] => []
  | .obj fields :: rest =>
    let v := gp fields
    (if v.truthy && !(v == JVal.str "Unknown") then [v] else []) ++
      collectGeoPoints gp rest
  | _ :: _ => []

/-- The two explicitly named collections scanned for the water
category. -/
def waterTargetFiles : List String :=
  ["nsmos_substances_substances.json", "esawage_surface_substances_substances.json"]

/-- `BaseParser.extract_geo_points` (main_parser.py lines 139-180).  For
the water category only the two files of `waterTargetFiles` are opened
(a missing or unreadable one is skipped); for every other category each
listed file whose name ends in `"_{dataType}.json"` is scanned, with the
record identity key as fallback geo-point value. -/
def extract_geo_points (category : String) (fs : List (String × FileData))
    (dataType : String) : Finset JVal :=
  if category == "water" then
    waterTargetFiles.foldl (fun acc name =>
      match lookupFs fs name with
      | .good records => acc ∪ (collectGeoPoints geoPointFieldWater records).toFinset
      | _ => acc) ∅
  else
    fs.foldl (fun acc entry =>
      if entry.1.endsWith ("_" ++ dataType ++ ".json") then
        match entry.2 with
        | .readable records =>
          acc ∪ (collectGeoPoints geoPointFieldDefault records).toFinset
        | .unreadable => acc
      else acc) ∅

/-- The `php` expansion applied to one node dict by `parse_point_data`
(main_parser.py lines 193-203): when the `php` field is truthy, parse it
with `json.loads` (modelled by the oracle `jsonLoads`, `none` meaning a
`json.JSONDecodeError`); on success store the structured form under
`"substances"` and delete `"php"`, on failure store the empty list and
keep the node.  `json.loads` of a truthy non-string raises `TypeError`,
which is not caught (`none` result). -/
def transformNode (jsonLoads : String → Option JVal)
    (node : List (String × JVal)) : Option (List (String × JVal)) :=
  let phpData := (List.lookup "php" node).getD (.str "")
  if phpData.truthy then
    match phpData with
    | .str s =>
      match jsonLoads s with
      | some substances => some (delField (setField node "substances" substances) "php")
      | none => some (setField node "substances" (.arr []))
    | _ => none
  else some node

/-- One iteration of the `for item in data["nodes"]` loop of
`parse_point_data`: the node dict is mutated in place, so the item keeps
the transformed node; when the `"node"` key is absent the default `{}`
is mutated and discarded, leaving the item unchanged; a non-dict wrapper
raises an uncaught exception. -/
def transformItem (jsonLoads : String → Option JVal) (item : JVal) :
    Option JVal :=
  match item with
  | .obj fields =>
    match List.lookup "node" fields with
    | some (.obj nodeFields) =>
      (transformNode jsonLoads nodeFields).map
        (fun node2 => JVal.obj (setField fields "node" (.obj node2)))
    | some _ => none
    | none => some item
  | _ => none

/-- The whole `php` expansion loop of `BaseParser.parse_point_data`
(main_parser.py lines 192-204) over the fetched `"nodes"` list; `none`
models an uncaught exception escaping the method. -/
def parse_point_data_php (jsonLoads : String → Option JVal) :
    List JVal → Option (List JVal)
  | [] => some []
  | item :: rest =>
    match transformItem jsonLoads item, parse_point_data_php jsonLoads rest with
    | some item2, some rest2 => some (item2 :: rest2)
    | _, _ => none

/-- Sample primary record with identity key 1. -/
def recNid1 : JVal := .obj [("Nid", .str "1")]

/-- A refetched copy of the record with identity key 1 (different payload). -/
def recNid1b : JVal := .obj [("Nid", .str "1"), ("title", .str "b")]

/-- Sample primary record with identity key 2. -/
def recNid2 : JVal := .obj [("Nid", .str "2")]

/-- Sample record carrying one geo-point value. -/
def gpRec (s : String) : JVal := .obj [("field_geo_point", .str s)]

/-- Water-category directory holding the two named collections with
geo-point values A, Unknown, B, A. -/
def waterFsSmall : List (String × FileData) :=
  [("nsmos_substances_substances.json", .readable [gpRec "A", gpRec "Unknown"]),
   ("esawage_surface_substances_substances.json", .readable [gpRec "B", gpRec "A"])]

/-- The same directory with an extra collection matching the data-type
suffix convention, which the water rule must ignore. -/
def waterFsExtra : List (String × FileData) :=
  waterFsSmall ++ [("other_substances.json", .readable [gpRec "C"])]

/-- Sample fan-out node wrapper whose embedded `php` text is not valid
JSON. -/
def pointItemBadPhp : JVal :=
  .obj [("node", .obj [("field_period", .str "2020"), ("php", .str "not valid json")])]

/-- A run of incremental (`initial_parse = False`) merges through
`save_data`, each write succeeding. -/
def incrementalMergeRun (batches : List (List JVal)) (f : FileState) : FileState :=
  batches.foldl (fun file pd => (save_data pd false file .ok).1) f

/-- Two records share no identity key (under `key`) when no value is the
key of both. -/
def sharesNoKey (key : JVal → Option JVal) (a b : JVal) : Prop :=
  ∀ k, key a = some k → key b ≠ some k

/-- No two records of the list share an identity key. -/
def keysDistinct (key : JVal → Option JVal) (l : List JVal) : Prop :=
  l.Pairwise (sharesNoKey key)

theorem keysOf_mem {key : JVal → Option JVal} {l ks : List JVal}
    (h : keysOf key l = some ks) {a : JVal} (ha : a ∈ l) {k : JVal}
    (hk : key a = some k) : k ∈ ks := by
  induction l generalizing ks with
  | nil => cases ha
  | cons x xs ih =>
    cases hx : key x with
    | none => rw [keysOf, hx] at h; cases h
    | some y =>
      cases hxs : keysOf key xs with
      | none => rw [keysOf, hx, hxs] at h; cases h
      | some ys =>
        rw [keysOf, hx, hxs] at h
        cases h
        rcases List.mem_cons.mp ha with rfl | ha2
        · rw [hx] at hk
          cases hk
          exact List.mem_cons_self _ _
        · exact List.mem_cons_of_mem _ (ih hxs ha2)

theorem mergeSave_incr_eq (key : JVal → Option JVal) (nd e eks nks : List JVal)
    (wb : WriteBehavior) (hnd : nd.isEmpty = false)
    (he : keysOf key e = some eks) (hn : keysOf key nd = some nks) :
    mergeSave key nd false (.good e) wb =
      (if (newSubset key eks nd).isEmpty then ((.good e : FileState), .noNewData)
       else performWrite (e ++ newSubset key eks nd)
         (some (newSubset key eks nd).length) wb) := by
  unfold mergeSave
  simp only [hnd, Bool.false_eq_true, if_false]
  unfold mergeInto
  rw [he, hn]

/-- C2: an incremental merge of a non-empty batch onto an existing
snapshot appends exactly the records whose `"Nid"` is new, in their
original order, reports their count, and performs no write at all when
that subset is empty, reporting the distinct no-new-data outcome
instead.  `eNids` is the list of `"Nid"` values of the existing
snapshot; the `keysOf` hypotheses state that every record carries its
key. -/
theorem incremental_merge_exact (pd e eNids : List JVal)
    (hpd : pd ≠ []) (hE : keysOf nidOf e = some eNids)
    (hP : (keysOf nidOf pd).isSome) :
    (newSubset nidOf eNids pd = [] →
      save_data pd false (.good e) .ok = (.good e, .noNewData)) ∧
    (newSubset nidOf eNids pd ≠ [] →
      save_data pd false (.good e) .ok =
        (.good (e ++ newSubset nidOf eNids pd),
         .wrote (some (newSubset nidOf eNids pd).length)
           (e ++ newSubset nidOf eNids pd).length)) := by
  obtain ⟨nks, hnk⟩ := Option.isSome_iff_exists.mp hP
  have hnd : pd.isEmpty = false := by simpa [List.isEmpty_iff] using hpd
  have h := mergeSave_incr_eq nidOf pd e eNids nks .ok hnd hE hnk
  refine ⟨fun hempty => ?_, fun hne => ?_⟩
  · unfold save_data
    rw [h]
    simp [hempty]
  · unfold save_data
    rw [h]
    simp [List.isEmpty_iff, hne, performWrite]

/-- C2 witness: the spec scenario.  Existing snapshot `[{Nid:1}]` merged
with fetched `[{Nid:1,...},{Nid:2}]` appends only the record with Nid 2
and reports one new record out of a total of two. -/
theorem incremental_merge_exact_witness :
    save_data [recNid1b, recNid2] false (.good [recNid1]) .ok =
      (.good [recNid1, recNid2], .wrote (some 1) 2) := by
  have h := (incremental_merge_exact [recNid1b, recNid2] [recNid1] [.str "1"]
    (by decide) (by decide) (by decide)).2 (by decide)
  exact h.trans (by decide)

/-- C3: the claim is violated by the code.  `save_data` writes with
`open(filename, "w")`, which truncates the previously valid snapshot in
place before `json.dump` runs, so a write that fails partway leaves the
file corrupt instead of intact: merging `[{Nid:2}]` onto the valid
snapshot `[{Nid:1}]` with a failing write destroys the prior
snapshot. -/
theorem write_failure_corrupts_prior_snapshot :
    save_data [recNid2] false (.good [recNid1]) .failMidway =
      (.corrupt, .writeError) ∧
    (save_data [recNid2] false (.good [recNid1]) .failMidway).1 ≠
      .good [recNid1] := by decide

/-- C4 counterexample: with `initial_parse = True` and an empty new
record set, `save_data` skips (the `if not self.parsed_data` guard)
instead of replacing the snapshot, so the persisted file keeps its old
record rather than becoming the empty collection the claim requires. -/
theorem initial_empty_no_replace :
    save_data [] true (.good [recNid1]) .ok = (.good [recNid1], .skippedEmpty) ∧
    (save_data [] true (.good [recNid1]) .ok).1 ≠ .good [] := by decide

/-- C4 amended: for every merge in initial mode with a NON-EMPTY new
record set, the new records fully replace any existing snapshot in both
`save_data` and `save_point_data`; with an empty new record set no write
occurs and the existing file is left untouched. -/
theorem initial_mode_replaces (nd : List JVal) (f : FileState) (hnd : nd ≠ []) :
    save_data nd true f .ok = (.good nd, .wrote none nd.length) ∧
    save_point_data nd true f .ok = (.good nd, .wrote none nd.length) := by
  constructor <;>
    simp [save_data, save_point_data, mergeSave, List.isEmpty_iff, hnd, performWrite]

/-- C4 amended witness: initial mode on a non-empty batch replaces a
differing prior snapshot. -/
theorem initial_mode_replaces_witness :
    save_data [recNid2] true (.good [recNid1]) .ok =
      (.good [recNid2], .wrote none 1) :=
  (initial_mode_replaces [recNid2] (.good [recNid1]) (by decide)).1

/-- C6: when the existing snapshot file exists but cannot be read or
parsed, an incremental merge aborts: the read failure is reported, no
write is attempted (whatever the write environment would do), and the
unreadable file is left exactly as it was, for both `save_data` and
`save_point_data`. -/
theorem unreadable_snapshot_aborts (nd : List JVal) (wb : WriteBehavior)
    (hnd : nd ≠ []) :
    save_data nd false .corrupt wb = (.corrupt, .readError) ∧
    save_point_data nd false .corrupt wb = (.corrupt, .readError) := by
  constructor <;>
    simp [save_data, save_point_data, mergeSave, List.isEmpty_iff, hnd]

/-- C6 witness: a concrete aborted merge over an unreadable snapshot. -/
theorem unreadable_snapshot_aborts_witness :
    save_data [recNid2] false .corrupt .ok = (.corrupt, .readError) :=
  (unreadable_snapshot_aborts [recNid2] .ok (by decide)).1

theorem mergeSave_incr_result (key : JVal → Option JVal) (nd : List JVal)
    (f : FileState) :
    (mergeSave key nd false f .ok).1 = f ∨
    ∃ tail, (mergeSave key nd false f .ok).1 = .good (fileRecords f ++ tail) := by
  cases hnd : nd.isEmpty with
  | true => left; simp [mergeSave, hnd]
  | false =>
    cases f with
    | corrupt => left; simp [mergeSave, hnd]
    | absent =>
      cases hn : keysOf key nd with
      | none => left; simp [mergeSave, mergeInto, hnd, hn, keysOf]
      | some nks =>
        cases hs : newSubset key [] nd with
        | nil => left; simp [mergeSave, mergeInto, hnd, hn, hs, keysOf]
        | cons r rest =>
          right
          refine ⟨newSubset key [] nd, ?_⟩
          simp [mergeSave, mergeInto, hnd, hn, hs, keysOf, performWrite, fileRecords]
    | good e =>
      cases hke : keysOf key e with
      | none => left; simp [mergeSave, mergeInto, hnd, hke]
      | some eks =>
        cases hn : keysOf key nd with
        | none => left; simp [mergeSave, mergeInto, hnd, hke, hn]
        | some nks =>
          cases hs : newSubset key eks nd with
          | nil => left; simp [mergeSave, mergeInto, hnd, hke, hn, hs]
          | cons r rest =>
            right
            refine ⟨newSubset key eks nd, ?_⟩
            simp [mergeSave, mergeInto, hnd, hke, hn, hs, performWrite, fileRecords]

theorem mergeSave_incr_prefix (key : JVal → Option JVal) (nd : List JVal)
    (f : FileState) :
    List.IsPrefix (fileRecords f) (fileRecords ((mergeSave key nd false f .ok).1)) := by
  rcases mergeSave_incr_result key nd f with h | ⟨tail, h⟩
  · rw [h]
  · rw [h]
    exact ⟨tail, rfl⟩

/-- C5: snapshot growth under `save_data` is monotonic and append-only.
Along any run of incremental merges with succeeding writes, the records
of the starting snapshot form a prefix of the final snapshot — every
record present before any of the merges is still present, unmodified and
at its position, afterwards — and the record count never decreases.
Instantiating `batches` with a single batch gives the per-merge
statement. -/
theorem incremental_merges_monotonic (batches : List (List JVal)) (f : FileState) :
    List.IsPrefix (fileRecords f) (fileRecords (incrementalMergeRun batches f)) ∧
    (fileRecords f).length ≤ (fileRecords (incrementalMergeRun batches f)).length := by
  have hpre : ∀ (bs : List (List JVal)) (g : FileState),
      List.IsPrefix (fileRecords g) (fileRecords (incrementalMergeRun bs g)) := by
    intro bs
    induction bs with
    | nil => intro g; exact List.prefix_rfl
    | cons b rest ih =>
      intro g
      have h1 := mergeSave_incr_prefix nidOf b g
      have h3 : incrementalMergeRun (b :: rest) g =
          incrementalMergeRun rest ((save_data b false g .ok).1) := rfl
      rw [h3]
      exact h1.trans (ih _)
  exact ⟨hpre batches f, (hpre batches f).length_le⟩

/-- C1 counterexample: a fetched batch that itself contains two records
with the same `"Nid"` is persisted with both copies by an incremental
merge, so the persisted snapshot contains two records sharing an
identity key; the claim fails as stated. -/
theorem duplicate_nid_persists :
    (save_data [recNid2, recNid2] false (.good [recNid1]) .ok).1 =
      .good [recNid1, recNid2, recNid2] ∧
    ¬ keysDistinct nidOf [recNid1, recNid2, recNid2] := by
  constructor
  · decide
  · intro h
    have h2 := (List.pairwise_cons.mp (List.pairwise_cons.mp h).2).1
    have h3 := h2 recNid2 (by simp)
    exact h3 (.str "2") (by decide) (by decide)

theorem mergeInto_keysDistinct (key : JVal → Option JVal) (nd e : List JVal)
    (f : FileState) (wb : WriteBehavior)
    (hnd : keysDistinct key nd) (he : keysDistinct key e)
    (hf : ∀ l, f = .good l → keysDistinct key l) :
    ∀ l, (mergeInto key nd e f wb).1 = .good l → keysDistinct key l := by
  intro l hl
  unfold mergeInto at hl
  cases hke : keysOf key e with
  | none =>
    cases hkn : keysOf key nd with
    | none => simp only [hke, hkn] at hl; exact hf l hl
    | some nks => simp only [hke, hkn] at hl; exact hf l hl
  | some eks =>
    cases hkn : keysOf key nd with
    | none => simp only [hke, hkn] at hl; exact hf l hl
    | some nks =>
      simp only [hke, hkn] at hl
      cases hs : (newSubset key eks nd).isEmpty with
      | true => rw [if_pos hs] at hl; exact hf l hl
      | false =>
        rw [if_neg (by simp [hs])] at hl
        cases wb with
        | failMidway => simp [performWrite] at hl
        | ok =>
          simp only [performWrite] at hl
          cases hl
          refine List.pairwise_append.mpr ⟨he, hnd.sublist (List.filter_sublist _), ?_⟩
          intro a ha b hb k hak hbk
          obtain ⟨hbnd, hpred⟩ := List.mem_filter.mp hb
          cases hkb : key b with
          | none => rw [hkb] at hbk; cases hbk
          | some kb =>
            rw [hkb] at hbk
            cases hbk
            rw [hkb] at hpred
            simp only [Bool.not_eq_eq_eq_not, Bool.not_true] at hpred
            have hmem : k ∈ eks := keysOf_mem hke ha hak
            simp at hpred
            exact hpred hmem

theorem mergeSave_keysDistinct (key : JVal → Option JVal) (nd : List JVal)
    (init : Bool) (f : FileState) (wb : WriteBehavior)
    (hnd : keysDistinct key nd)
    (hf : keysDistinct key (fileRecords f)) :
    ∀ l, (mergeSave key nd init f wb).1 = .good l → keysDistinct key l := by
  intro l hl
  have hgood : ∀ m, f = .good m → keysDistinct key m := by
    intro m hm; rw [hm] at hf; exact hf
  unfold mergeSave at hl
  cases hnd0 : nd.isEmpty with
  | true => rw [if_pos hnd0] at hl; exact hgood l hl
  | false =>
    rw [if_neg (by simp [hnd0])] at hl
    cases init with
    | true =>
      rw [if_pos rfl] at hl
      cases wb with
      | ok =>
        simp only [performWrite] at hl
        cases hl
        exact hnd
      | failMidway => simp [performWrite] at hl
    | false =>
      rw [if_neg (by simp)] at hl
      cases f with
      | corrupt => simp at hl
      | absent =>
        exact mergeInto_keysDistinct key nd [] .absent wb hnd
          (by simp [keysDistinct]) (fun m hm => by cases hm) l hl
      | good e =>
        exact mergeInto_keysDistinct key nd e (.good e) wb hnd
          (hgood e rfl) hgood l hl

/-- C1 amended: the claim holds provided the incoming record batch
itself has pairwise-distinct identity keys (which the failed unamended
claim explicitly waived).  If the batch and the prior snapshot content
each have pairwise-distinct keys, then any snapshot file persisted by
`save_data` (keyed by `"Nid"`) or `save_point_data` (keyed by node
`"field_period"`), in either mode and under any write behaviour, again
has pairwise-distinct identity keys. -/
theorem persisted_identity_keys_unique (nd : List JVal) (init : Bool)
    (f : FileState) (wb : WriteBehavior) :
    (keysDistinct nidOf nd → keysDistinct nidOf (fileRecords f) →
      ∀ l, (save_data nd init f wb).1 = .good l → keysDistinct nidOf l) ∧
    (keysDistinct periodOf nd → keysDistinct periodOf (fileRecords f) →
      ∀ l, (save_point_data nd init f wb).1 = .good l → keysDistinct periodOf l) :=
  ⟨fun h1 h2 => mergeSave_keysDistinct nidOf nd init f wb h1 h2,
   fun h1 h2 => mergeSave_keysDistinct periodOf nd init f wb h1 h2⟩

/-- C1 amended witness: the snapshot persisted by a concrete incremental
merge of a distinct-key batch onto a distinct-key snapshot has distinct
identity keys. -/
theorem persisted_identity_keys_unique_witness :
    keysDistinct nidOf [recNid1, recNid2] := by
  have h := (persisted_identity_keys_unique [recNid2] false (.good [recNid1]) .ok).1
  refine h ?_ ?_ [recNid1, recNid2] (by decide)
  · simp [keysDistinct]
  · simp [keysDistinct, fileRecords]

theorem fetchLoop_all_timeout (outcome : Nat → AttemptOutcome)
    (h : ∀ i, outcome i = .timeout) (maxA : Nat) :
    ∀ remaining attempts, attempts + remaining = maxA → 0 < remaining →
      fetchLoop outcome maxA attempts remaining =
        (.empty, maxA, (List.range (remaining - 1)).map (fun i => 2 ^ (attempts + 1 + i))) := by
  intro remaining
  induction remaining with
  | zero => intro attempts _ h0; exact absurd h0 (lt_irrefl 0)
  | succ r ih =>
    intro attempts hsum _
    simp only [fetchLoop, h attempts]
    by_cases hend : attempts + 1 = maxA
    · have hr : r = 0 := by omega
      subst hr
      simp [hend]
    · have hrpos : 0 < r := by omega
      have hne : (attempts + 1 == maxA) = false := by simp [hend]
      rw [if_neg (by simp [hend])]
      rw [ih (attempts + 1) (by omega) hrpos]
      obtain ⟨r2, rfl⟩ : ∃ r2, r = r2 + 1 := ⟨r - 1, by omega⟩
      simp only [Nat.add_sub_cancel]
      rw [List.range_succ_eq_map]
      simp only [List.map_cons, List.map_map, Nat.add_zero, Prod.mk.injEq, true_and]
      congr 1
      exact List.map_congr_left (fun i _ => by simp only [Function.comp]; congr 1; omega)

/-- C7: when every GET attempt times out, `fetch_data` performs exactly
`retries` attempts (`self.retries`, default 3), sleeps `2 ** attempts`
seconds after each failed attempt but the last — that is, 2, 4, ... up
to the sleep before the final attempt — and then returns the empty
result after logging the exhausted-retries failure. -/
theorem fetch_all_timeouts (retries : Nat) (outcome : Nat → AttemptOutcome)
    (h : ∀ i, outcome i = .timeout) :
    fetch_data retries outcome =
      (.empty, retries, (List.range (retries - 1)).map (fun i => 2 ^ (i + 1))) := by
  cases retries with
  | zero => rfl
  | succ n =>
    unfold fetch_data
    rw [fetchLoop_all_timeout outcome h (n + 1) (n + 1) 0 (by omega) (by omega)]
    simp only [Prod.mk.injEq, true_and]
    exact List.map_congr_left (fun i _ => by congr 1; omega)

/-- C7 witness: the default three retries with every attempt timing out
make exactly 3 attempts, sleep 2 then 4 seconds between them, and
return Empty. -/
theorem fetch_all_timeouts_witness :
    fetch_data 3 (fun _ => .timeout) = (.empty, 3, [2, 4]) := by
  have h := fetch_all_timeouts 3 (fun _ => .timeout) (fun _ => rfl)
  exact h.trans (by decide)

/-- C8: non-timeout failures are fatal and never retried.  If the first
GET attempt fails with an HTTP-level error of any status — in
particular 404 — or with any other transport error, `fetch_data`
returns Empty after exactly one attempt, with no backoff sleep and no
further attempts. -/
theorem fatal_error_no_retry (retries : Nat) (outcome : Nat → AttemptOutcome)
    (hr : 0 < retries)
    (h : (∃ s, outcome 0 = .httpError s) ∨ outcome 0 = .clientError) :
    fetch_data retries outcome = (.empty, 1, []) := by
  obtain ⟨n, rfl⟩ : ∃ n, retries = n + 1 := ⟨retries - 1, by omega⟩
  unfold fetch_data
  rcases h with ⟨s, hs⟩ | hc
  · simp [fetchLoop, hs]
  · simp [fetchLoop, hc]

/-- C8 witness: an HTTP 404 response on the default three-retry
configuration yields Empty after a single attempt. -/
theorem fatal_error_no_retry_witness :
    fetch_data 3 (fun _ => .httpError 404) = (.empty, 1, []) :=
  fatal_error_no_retry 3 (fun _ => .httpError 404) (by omega) (Or.inl ⟨404, rfl⟩)

theorem mem_collectGeoPoints {gp : List (String × JVal) → JVal}
    {items : List JVal} {v : JVal} (hv : v ∈ collectGeoPoints gp items) :
    v.truthy = true ∧ v ≠ .str "Unknown" := by
  induction items with
  | nil => simp [collectGeoPoints] at hv
  | cons x rest ih =>
    cases x with
    | obj fields =>
      simp only [collectGeoPoints] at hv
      rcases List.mem_append.mp hv with h1 | h2
      · split at h1
        · next hc =>
          obtain rfl := List.mem_singleton.mp h1
          rw [Bool.and_eq_true] at hc
          obtain ⟨h3, h4⟩ := hc
          refine ⟨h3, ?_⟩
          intro heq
          rw [heq] at h4
          simp at h4
        · cases h1
      · exact ih h2
    | str s => simp [collectGeoPoints] at hv
    | null => simp [collectGeoPoints] at hv
    | arr elems => simp [collectGeoPoints] at hv

theorem foldl_union_mem {α : Type} (step : Finset JVal → α → Finset JVal)
    (P : JVal → Prop)
    (hstep : ∀ acc a v, v ∈ step acc a → v ∈ acc ∨ P v) :
    ∀ (l : List α) (init : Finset JVal), (∀ v ∈ init, P v) →
      ∀ v ∈ l.foldl step init, P v := by
  intro l
  induction l with
  | nil => intro init h v hv; exact h v hv
  | cons a t ih =>
    intro init h v hv
    refine ih (step init a) ?_ v hv
    intro w hw
    rcases hstep init a w hw with h1 | h2
    · exact h w h1
    · exact h2

/-- C9: geo-point discovery.  First, over every category, directory and
data type, each discovered value is truthy and differs from the sentinel
`"Unknown"` (in particular the empty string and `"Unknown"` are
excluded, and the result is a set, deduplicated by construction).
Second, the water category reads only the two explicitly named
collections: two directories agreeing on those two file names produce
identical results whatever other suffix-matching files they hold.
Third, the concrete scan over the two named water collections holding
geo-point values A, Unknown, B, A — next to an extra suffix-matching
file — yields exactly the set with A and B. -/
theorem extract_geo_points_spec :
    (∀ (category : String) (fs : List (String × FileData)) (dataType : String)
      (v : JVal), v ∈ extract_geo_points category fs dataType →
        v.truthy = true ∧ v ≠ .str "Unknown") ∧
    (∀ (fs1 fs2 : List (String × FileData)) (dataType : String),
      (∀ name ∈ waterTargetFiles, lookupFs fs1 name = lookupFs fs2 name) →
      extract_geo_points "water" fs1 dataType =
        extract_geo_points "water" fs2 dataType) ∧
    extract_geo_points "water" waterFsExtra "substances" =
      {JVal.str "A", JVal.str "B"} := by
  refine ⟨?_, ?_, by decide⟩
  · intro category fs dataType v hv
    by_cases hcat : (category == "water") = true
    · rw [extract_geo_points, if_pos hcat] at hv
      refine foldl_union_mem _
        (fun w => w.truthy = true ∧ w ≠ .str "Unknown") ?_ waterTargetFiles ∅
        (by simp) v hv
      intro acc name w hw
      cases hst : lookupFs fs name with
      | good records =>
        simp only [hst] at hw
        rcases Finset.mem_union.mp hw with h1 | h2
        · exact Or.inl h1
        · exact Or.inr (mem_collectGeoPoints (List.mem_toFinset.mp h2))
      | absent => simp only [hst] at hw; exact Or.inl hw
      | corrupt => simp only [hst] at hw; exact Or.inl hw
    · rw [extract_geo_points, if_neg hcat] at hv
      refine foldl_union_mem _
        (fun w => w.truthy = true ∧ w ≠ .str "Unknown") ?_ fs ∅
        (by simp) v hv
      intro acc entry w hw
      by_cases hsuf : entry.1.endsWith ("_" ++ dataType ++ ".json") = true
      · rw [if_pos hsuf] at hw
        cases h2 : entry.2 with
        | readable records =>
          simp only [h2] at hw
          rcases Finset.mem_union.mp hw with h3 | h4
          · exact Or.inl h3
          · exact Or.inr (mem_collectGeoPoints (List.mem_toFinset.mp h4))
        | unreadable => simp only [h2] at hw; exact Or.inl hw
      · rw [if_neg hsuf] at hw
        exact Or.inl hw
  · intro fs1 fs2 dataType h
    have h1 := h "nsmos_substances_substances.json" (by simp [waterTargetFiles])
    have h2 := h "esawage_surface_substances_substances.json"
      (by simp [waterTargetFiles])
    rw [extract_geo_points, extract_geo_points, if_pos (by decide), if_pos (by decide)]
    simp only [waterTargetFiles, List.foldl_cons, List.foldl_nil]
    rw [h1, h2]

/-- C9 witness: adding an extra suffix-matching collection to the water
directory does not change the discovered set, and a concretely
discovered value A is truthy and is not the sentinel. -/
theorem extract_geo_points_spec_witness :
    extract_geo_points "water" waterFsSmall "substances" =
      extract_geo_points "water" waterFsExtra "substances" ∧
    (JVal.truthy (JVal.str "A") = true ∧ JVal.str "A" ≠ .str "Unknown") := by
  constructor
  · exact extract_geo_points_spec.2.1 waterFsSmall waterFsExtra "substances"
      (by decide)
  · exact extract_geo_points_spec.1 "water" waterFsSmall "substances"
      (JVal.str "A") (by decide)

theorem lookup_map_replace (fs : List (String × JVal)) (k : String) (v : JVal)
    (h : fs.any (fun p => p.1 == k) = true) :
    List.lookup k (fs.map (fun p => if p.1 == k then (k, v) else p)) = some v := by
  induction fs with
  | nil => simp at h
  | cons p t ih =>
    simp only [List.map_cons]
    by_cases hp : (p.1 == k) = true
    · rw [if_pos hp]
      simp [List.lookup]
    · rw [if_neg hp]
      have hne : p.1 ≠ k := by simpa using hp
      have hk : (k == p.1) = false := by simp [Ne.symm hne]
      simp only [List.any_cons, Bool.or_eq_true] at h
      rcases h with h1 | h2
      · exact absurd h1 hp
      · cases p with
        | mk a b => simp only [List.lookup, hk]; exact ih h2

theorem lookup_append_self (fs : List (String × JVal)) (k : String) (v : JVal)
    (h : fs.any (fun p => p.1 == k) = false) :
    List.lookup k (fs ++ [(k, v)]) = some v := by
  induction fs with
  | nil => simp [List.lookup]
  | cons p t ih =>
    simp only [List.any_cons, Bool.or_eq_false_iff] at h
    obtain ⟨h1, h2⟩ := h
    have hne : p.1 ≠ k := by simpa using h1
    have hk : (k == p.1) = false := by simp [Ne.symm hne]
    cases p with
    | mk a b =>
      simp only [List.cons_append, List.lookup, hk]
      exact ih h2

theorem lookup_setField (fs : List (String × JVal)) (k : String) (v : JVal) :
    List.lookup k (setField fs k v) = some v := by
  unfold setField
  by_cases h : fs.any (fun p => p.1 == k) = true
  · rw [if_pos h]
    exact lookup_map_replace fs k v h
  · rw [if_neg h]
    exact lookup_append_self fs k v (Bool.not_eq_true _ ▸ h)

theorem lookup_setField_ne (fs : List (String × JVal)) (k k2 : String) (v : JVal)
    (hne : k2 ≠ k) :
    List.lookup k2 (setField fs k v) = List.lookup k2 fs := by
  have hk2 : (k2 == k) = false := by simp [hne]
  unfold setField
  by_cases h : fs.any (fun p => p.1 == k) = true
  · rw [if_pos h]
    clear h
    induction fs with
    | nil => rfl
    | cons p t ih =>
      simp only [List.map_cons]
      by_cases hp : (p.1 == k) = true
      · rw [if_pos hp]
        have hpk : p.1 = k := by simpa using hp
        have hk3 : (k2 == p.1) = false := by rw [hpk]; exact hk2
        cases p with
        | mk a b =>
          simp only at hpk
          subst hpk
          simp only [List.lookup, hk2]
          exact ih
      · rw [if_neg hp]
        cases p with
        | mk a b =>
          cases hk4 : (k2 == a) with
          | true => simp [List.lookup, hk4]
          | false => simp only [List.lookup, hk4]; exact ih
  · rw [if_neg h]
    clear h
    induction fs with
    | nil => simp [List.lookup, hk2]
    | cons p t ih =>
      cases p with
      | mk a b =>
        cases hk4 : (k2 == a) with
        | true => simp [List.lookup, hk4]
        | false => simp only [List.cons_append, List.lookup, hk4]; exact ih

/-- C10: during fan-out, a fetched node wrapper whose embedded `php`
field is a non-empty string rejected by `json.loads` is kept, not
dropped: the transform loop of `parse_point_data` logs the decode error
and stores the empty list under `"substances"` (leaving the wrapper in
the node list), and `save_point_data` then persists the wrapper
whenever its `"field_period"` is not already present in the target
snapshot (`e` with period keys `eps`). -/
theorem bad_php_node_kept (jsonLoads : String → Option JVal)
    (fields nodeFields : List (String × JVal)) (s : String) (p : JVal)
    (e eps : List JVal)
    (hnode : List.lookup "node" fields = some (.obj nodeFields))
    (hphp : List.lookup "php" nodeFields = some (.str s))
    (hs : s ≠ "")
    (hbad : jsonLoads s = none)
    (hper : List.lookup "field_period" nodeFields = some p)
    (he : keysOf periodOf e = some eps)
    (hnew : eps.contains p = false) :
    parse_point_data_php jsonLoads [.obj fields] =
      some [.obj (setField fields "node"
        (.obj (setField nodeFields "substances" (.arr []))))] ∧
    save_point_data
      [.obj (setField fields "node"
        (.obj (setField nodeFields "substances" (.arr []))))]
      false (.good e) .ok =
      (.good (e ++ [.obj (setField fields "node"
        (.obj (setField nodeFields "substances" (.arr []))))]),
       .wrote (some 1) (e.length + 1)) := by
  have htruthy : JVal.truthy (.str s) = true := by simp [JVal.truthy, hs]
  have htrans : transformNode jsonLoads nodeFields =
      some (setField nodeFields "substances" (.arr [])) := by
    unfold transformNode
    rw [hphp]
    simp only [Option.getD_some, htruthy, if_true, hbad]
  have hitem : transformItem jsonLoads (.obj fields) =
      some (.obj (setField fields "node"
        (.obj (setField nodeFields "substances" (.arr []))))) := by
    simp [transformItem, hnode, htrans]
  have hper2 : periodOf (.obj (setField fields "node"
      (.obj (setField nodeFields "substances" (.arr []))))) = some p := by
    unfold periodOf
    simp only [JVal.lookup, lookup_setField]
    rw [lookup_setField_ne nodeFields "substances" "field_period" (.arr [])
      (by decide)]
    exact hper
  have hkeys : keysOf periodOf
      [.obj (setField fields "node"
        (.obj (setField nodeFields "substances" (.arr []))))] = some [p] := by
    simp [keysOf, hper2]
  constructor
  · simp [parse_point_data_php, hitem]
  · have hsub : newSubset periodOf eps
        [.obj (setField fields "node"
          (.obj (setField nodeFields "substances" (.arr []))))] =
        [.obj (setField fields "node"
          (.obj (setField nodeFields "substances" (.arr []))))] := by
      have hnotmem : p ∉ eps := by simpa using hnew
      simp [newSubset, hper2, hnotmem]
    have hmain := mergeSave_incr_eq periodOf
      [.obj (setField fields "node"
        (.obj (setField nodeFields "substances" (.arr []))))]
      e eps [p] .ok rfl he hkeys
    unfold save_point_data
    rw [hmain, hsub]
    simp [performWrite]

/-- C10 witness: a concrete node wrapper whose `php` text is
`"not valid json"` degrades to an empty `substances` list, keeps its
other fields (including the raw `php` text), and is persisted into an
empty point snapshot. -/
theorem bad_php_node_kept_witness :
    parse_point_data_php (fun _ => none) [pointItemBadPhp] =
      some [.obj [("node", .obj [("field_period", .str "2020"),
        ("php", .str "not valid json"), ("substances", .arr [])])]] ∧
    save_point_data [.obj [("node", .obj [("field_period", .str "2020"),
        ("php", .str "not valid json"), ("substances", .arr [])])]]
      false (.good []) .ok =
      (.good [.obj [("node", .obj [("field_period", .str "2020"),
        ("php", .str "not valid json"), ("substances", .arr [])])]],
       .wrote (some 1) 1) := by
  have h := bad_php_node_kept (fun _ => none)
    [("node", .obj [("field_period", .str "2020"),
      ("php", .str "not valid json")])]
    [("field_period", .str "2020"), ("php", .str "not valid json")]
    "not valid json" (.str "2020") [] []
    (by decide) (by decide) (by decide) rfl (by decide) (by decide) (by decide)
  exact ⟨h.1.trans (by decide), h.2.trans (by decide)⟩
